import Mathlib

/-!
Formal model of the low-level register core of the `device-driver` crate
(`src/ll/register.rs`).

The source generates, per register, a read value `R([u8; N])`, a write value
`W([u8; N])`, and a `RegAccessor` with `read` / `write` / `modify` operations
selected by the register's access mode.  Field getters and setters are the
`bitvec` calls

  `self.0.as_bits::<Lsb0>()[range].load_be()`          (getter)
  `self.0.as_bits_mut::<Lsb0>()[range].store_be(v)`    (setter)

We embed a register buffer as its `Lsb0` bit view: a `List Bool` of length
`8 * N`, where bit index `i` is bit `i % 8` of byte `i / 8`.  `store_be` /
`load_be` follow the `bitvec` crate's documented semantics (the crate is an
external dependency of the repository): the bit range is split into per-byte
chunks, the chunk in the byte with the lowest index is the most significant
("big-endian" element ordering), and inside one byte a lower `Lsb0` position
is a less significant bit of the chunk.  A value wider than the range is
truncated to its low `hi - lo` bits, and loads zero-extend.

Stateful Rust (`&mut self` on the interface trait) becomes explicit state
passing; fallible calls return `Except`.
-/

namespace DeviceDriver

/-- Buffer of a register: the `Lsb0` bit view of its `[u8; N]` byte array. -/
abbrev Buf := List Bool

/-- Significance of buffer bit `i` inside the bit range `[lo, hi)` under
`store_be` / `load_be` on an `Lsb0` view over bytes: buffer bit `i` carries
bit `bitSig lo hi i` of the scalar value.  The first summand counts the range
bits lying in bytes after `i`'s byte (under big-endian element ordering they
are all less significant than `i`'s chunk), the second is `i`'s offset inside
its own byte's chunk (within a byte, a lower `Lsb0` position is less
significant). -/
def bitSig (lo hi i : Nat) : Nat :=
  (hi - min hi (8 * (i / 8) + 8)) + (i - max lo (8 * (i / 8)))

/-- Model of the generated field setter body
`self.0.as_bits_mut::<Lsb0>()[lo..hi].store_be(v)`: write the low `hi - lo`
bits of `v` into the range (excess high bits of `v` are discarded), leaving
every bit outside the range unchanged. -/
def storeBe (buf : Buf) (lo hi v : Nat) : Buf :=
  (List.range buf.length).map fun i =>
    if lo ≤ i ∧ i < hi then v.testBit (bitSig lo hi i) else buf.getD i false

/-- Model of the generated field getter body
`self.0.as_bits::<Lsb0>()[lo..hi].load_be()`: assemble the scalar whose bit
`bitSig lo hi i` is buffer bit `i`, for `i` ranging over `[lo, hi)`. -/
def loadBe (buf : Buf) (lo hi : Nat) : Nat :=
  ∑ i in Finset.Ico lo hi, (if buf.getD i false then 2 ^ bitSig lo hi i else 0)

theorem storeBe_length (buf : Buf) (lo hi v : Nat) :
    (storeBe buf lo hi v).length = buf.length := by
  simp [storeBe]

theorem bitSig_lt (lo hi i : Nat) (h1 : lo ≤ i) (h2 : i < hi) :
    bitSig lo hi i < hi - lo := by
  unfold bitSig
  omega

theorem storeBe_getD (buf : Buf) (lo hi v i : Nat) :
    (storeBe buf lo hi v).getD i false =
      if lo ≤ i ∧ i < hi ∧ i < buf.length then v.testBit (bitSig lo hi i)
      else buf.getD i false := by
  rcases Nat.lt_or_ge i buf.length with hlt | hge
  · by_cases h1 : lo ≤ i ∧ i < hi
    · simp [storeBe, List.getD_eq_getElem?_getD, List.getElem?_map,
        List.getElem?_range hlt, h1, hlt]
    · simp only [storeBe, List.getD_eq_getElem?_getD, List.getElem?_map,
        List.getElem?_range hlt, Option.map_some', Option.getD_some, if_neg h1]
      rw [if_neg]
      intro h2
      exact h1 ⟨h2.1, h2.2.1⟩
  · have h1 : (storeBe buf lo hi v).getD i false = false := by
      apply List.getD_eq_default
      simpa [storeBe_length] using hge
    have h2 : buf.getD i false = false := List.getD_eq_default _ _ hge
    rw [h1, h2, if_neg]
    intro h3
    omega

theorem sum_ite_testBit (v w : Nat) :
    ∑ j in Finset.range w, (if v.testBit j then 2 ^ j else 0) = v % 2 ^ w := by
  induction w with
  | zero => simp [Nat.mod_one]
  | succ w ih =>
    rw [Finset.sum_range_succ, ih]
    have hmul : v % 2 ^ (w + 1) = v % 2 ^ w + 2 ^ w * (v / 2 ^ w % 2) := by
      rw [pow_succ, Nat.mod_mul]
    have htb : v.testBit w = decide (v / 2 ^ w % 2 = 1) := Nat.testBit_to_div_mod
    have h2 : v / 2 ^ w % 2 = 0 ∨ v / 2 ^ w % 2 = 1 := by omega
    rcases h2 with h2 | h2 <;> simp [htb, h2, hmul]

theorem bitSig_injOn (lo hi : Nat) :
    ∀ i ∈ Finset.Ico lo hi, ∀ j ∈ Finset.Ico lo hi,
      bitSig lo hi i = bitSig lo hi j → i = j := by
  intro i hi1 j hj1 heq
  simp only [Finset.mem_Ico] at hi1 hj1
  unfold bitSig at heq
  omega

/-- The significance map is a bijection from the bit range onto the value's
bit positions `[0, hi - lo)`. -/
theorem bitSig_image (lo hi : Nat) :
    Finset.image (bitSig lo hi) (Finset.Ico lo hi) = Finset.range (hi - lo) := by
  apply Finset.eq_of_subset_of_card_le
  · intro j hj
    simp only [Finset.mem_image, Finset.mem_Ico] at hj
    obtain ⟨i, ⟨h1, h2⟩, rfl⟩ := hj
    exact Finset.mem_range.mpr (bitSig_lt lo hi i h1 h2)
  · rw [Finset.card_range, Finset.card_image_of_injOn (bitSig_injOn lo hi),
      Nat.card_Ico]

/-- Round trip of the codec: reading a field back after storing `v` into it
yields `v` truncated to the field's width. -/
theorem loadBe_storeBe (buf : Buf) (lo hi v : Nat) (hlen : hi ≤ buf.length) :
    loadBe (storeBe buf lo hi v) lo hi = v % 2 ^ (hi - lo) := by
  have himg : ∑ j in Finset.image (bitSig lo hi) (Finset.Ico lo hi),
        (if v.testBit j then 2 ^ j else 0) =
      ∑ i in Finset.Ico lo hi,
        (if v.testBit (bitSig lo hi i) then 2 ^ bitSig lo hi i else 0) :=
    Finset.sum_image (bitSig_injOn lo hi)
  have hcongr : ∀ i ∈ Finset.Ico lo hi,
      (if (storeBe buf lo hi v).getD i false then 2 ^ bitSig lo hi i else 0) =
      (if v.testBit (bitSig lo hi i) then 2 ^ bitSig lo hi i else 0) := by
    intro i hmem
    simp only [Finset.mem_Ico] at hmem
    have hgd : (storeBe buf lo hi v).getD i false = v.testBit (bitSig lo hi i) := by
      rw [storeBe_getD]
      exact if_pos ⟨hmem.1, hmem.2, lt_of_lt_of_le hmem.2 hlen⟩
    rw [hgd]
  unfold loadBe
  rw [Finset.sum_congr rfl hcongr, ← himg, bitSig_image, sum_ite_testBit]

/-- Lists agreeing at every `getD` index and of equal length are equal. -/
theorem buf_eq_of_getD (l1 l2 : Buf) (hlen : l1.length = l2.length)
    (h : ∀ i, l1.getD i false = l2.getD i false) : l1 = l2 := by
  apply List.ext_getElem hlen
  intro i h1 h2
  have hh := h i
  rwa [List.getD_eq_getElem l1 false h1, List.getD_eq_getElem l2 false h2] at hh

/-!  The error type, the hardware interface trait, and the generated
`read` / `write` / `modify` operations of `RegAccessor`. -/

/-- Mirror of `enum RegisterError<IE> { InvalidValue, HardwareError(IE) }`. -/
inductive RegisterError (IE : Type) where
  | InvalidValue : RegisterError IE
  | HardwareError : IE → RegisterError IE
deriving DecidableEq

/-- Mirror of `impl<IE> From<IE> for RegisterError<IE>`: the conversion the
`?` operator applies to an interface error. -/
def RegisterError.fromInterface (e : IE) : RegisterError IE :=
  RegisterError.HardwareError e

/-- Shallow embedding of the `RegisterInterface` trait.  An implementation is
a pair of state-passing functions over a state type `S` (the `&mut self`
receiver), an address type `A`, and an interface error type `IE`.
`read_register` receives the caller's buffer (the `&mut [u8]` out-parameter,
as a bit list) and returns the updated state together with the filled buffer
or the interface error; `write_register` receives the bits to write. -/
structure RegisterInterface (S A IE : Type) where
  read_register : S → A → Buf → S × Except IE Buf
  write_register : S → A → Buf → S × Except IE Unit

/-- Observable hardware calls, used to state which interface operations a
generated accessor operation performs, and with which arguments. -/
inductive Call (A : Type) where
  | readCall : A → Call A
  | writeCall : A → Buf → Call A
deriving DecidableEq

/-- Wrap an interface so that the state additionally records the list of
hardware calls made, in order.  The behaviour is otherwise unchanged. -/
def instrument (I : RegisterInterface S A IE) :
    RegisterInterface (S × List (Call A)) A IE where
  read_register := fun s a buf =>
    (((I.read_register s.1 a buf).1, s.2 ++ [Call.readCall a]),
      (I.read_register s.1 a buf).2)
  write_register := fun s a bits =>
    (((I.write_register s.1 a bits).1, s.2 ++ [Call.writeCall a bits]),
      (I.write_register s.1 a bits).2)

/-- Mirror of `R::zero()` / `W::zero()`: the all-zero `size`-byte buffer
(`Self([0; $register_size])`), as its bit view. -/
def zeroBuf (size : Nat) : Buf := List.replicate (8 * size) false

/-- Mirror of the generated `read`:
`let mut r = R::zero(); self.interface.read_register(addr, &mut r.0)?; Ok(r)`.
The `?` converts an interface error through `From`, i.e. into
`HardwareError`. -/
def readOp (I : RegisterInterface S A IE) (addr : A) (size : Nat) (s : S) :
    S × Except (RegisterError IE) Buf :=
  match I.read_register s addr (zeroBuf size) with
  | (s', Except.ok bits) => (s', Except.ok bits)
  | (s', Except.error e) => (s', Except.error (RegisterError.fromInterface e))

/-- Mirror of the generated `write`:
`let w = f(W::zero()); self.interface.write_register(addr, &w.0)?; Ok(())`. -/
def writeOp (I : RegisterInterface S A IE) (addr : A) (size : Nat)
    (f : Buf → Buf) (s : S) : S × Except (RegisterError IE) Unit :=
  match I.write_register s addr (f (zeroBuf size)) with
  | (s', Except.ok _) => (s', Except.ok ())
  | (s', Except.error e) => (s', Except.error (RegisterError.fromInterface e))

/-- Mirror of the generated `modify` (the `RW` arm):
`let r = self.read()?; let w = W(r.0.clone()); let w = f(r, w);
self.write(|_| w)?; Ok(())`. -/
def modifyOp (I : RegisterInterface S A IE) (addr : A) (size : Nat)
    (f : Buf → Buf → Buf) (s : S) : S × Except (RegisterError IE) Unit :=
  match readOp I addr size s with
  | (s', Except.ok r) =>
      let w := r
      let w := f r w
      writeOp I addr size (fun _ => w) s'
  | (s', Except.error e) => (s', Except.error e)

/-- Mock transport holding one perfect register cell: reads return the stored
bits, writes replace them, no failures.  Used to state round-trip
properties of `modify`. -/
def memInterface : RegisterInterface Buf Unit Empty where
  read_register := fun s _ _ => (s, Except.ok s)
  write_register := fun _ _ bits => (bits, Except.ok ())

/-- Mock transport whose read always fails with `e` (writes succeed). -/
def failReadInterface (e : IE) : RegisterInterface Unit Unit IE where
  read_register := fun s _ _ => (s, Except.error e)
  write_register := fun s _ _ => (s, Except.ok ())

/-- Mock transport whose write always fails with `e` (reads return the
caller's buffer unchanged). -/
def failWriteInterface (e : IE) : RegisterInterface Unit Unit IE where
  read_register := fun s _ b => (s, Except.ok b)
  write_register := fun s _ _ => (s, Except.error e)

/-- Unfolding equation for `readOp`: the state
is whatever the single `read_register` call produced, and the result is that
call's result with the error converted by `From` (`HardwareError`). -/
theorem readOp_eq (I : RegisterInterface S A IE) (addr : A) (size : Nat)
    (s : S) :
    readOp I addr size s =
      ((I.read_register s addr (zeroBuf size)).1,
        Except.mapError RegisterError.HardwareError
          (I.read_register s addr (zeroBuf size)).2) := by
  unfold readOp
  rcases h : I.read_register s addr (zeroBuf size) with ⟨s', r⟩
  rcases r with e | bits <;> simp [Except.mapError, RegisterError.fromInterface]

/-- Unfolding equation for `writeOp`: exactly one `write_register` call, with
the bytes `f (W::zero())`, its error converted by `From`. -/
theorem writeOp_eq (I : RegisterInterface S A IE) (addr : A) (size : Nat)
    (f : Buf → Buf) (s : S) :
    writeOp I addr size f s =
      ((I.write_register s addr (f (zeroBuf size))).1,
        Except.mapError RegisterError.HardwareError
          (I.write_register s addr (f (zeroBuf size))).2) := by
  unfold writeOp
  rcases h : I.write_register s addr (f (zeroBuf size)) with ⟨s', r⟩
  rcases r with e | u
  · simp [Except.mapError, RegisterError.fromInterface]
  · simp [Except.mapError]

/-- On a read failure, `modify` stops at the `self.read()?` line: the final
state is the one after the failed read and the read's converted error is
returned; the transform and `write` do not occur in the result. -/
theorem modifyOp_read_error (I : RegisterInterface S A IE) (addr : A)
    (size : Nat) (f : Buf → Buf → Buf) (s : S) (e : IE)
    (h : (I.read_register s addr (zeroBuf size)).2 = Except.error e) :
    modifyOp I addr size f s =
      ((I.read_register s addr (zeroBuf size)).1,
        Except.error (RegisterError.HardwareError e)) := by
  unfold modifyOp
  rw [readOp_eq, h]
  rfl

/-- On a read success with bits `B`, `modify` continues as
`self.write(|_| f B B)` from the post-read state: the write value handed to
`f` is the byte-for-byte copy `B` of the read value. -/
theorem modifyOp_read_ok (I : RegisterInterface S A IE) (addr : A)
    (size : Nat) (f : Buf → Buf → Buf) (s : S) (B : Buf)
    (h : (I.read_register s addr (zeroBuf size)).2 = Except.ok B) :
    modifyOp I addr size f s =
      writeOp I addr size (fun _ => f B B)
        (I.read_register s addr (zeroBuf size)).1 := by
  unfold modifyOp
  rw [readOp_eq, h]
  rfl

/-- Against the perfect one-cell transport holding bits `B`, `modify f`
passes the read bits `B` and their copy to `f`, stores `f B B` in the cell
and succeeds. -/
theorem modifyOp_mem (size : Nat) (f : Buf → Buf → Buf) (B : Buf) :
    modifyOp memInterface () size f B = (f B B, Except.ok ()) := rfl

/-- Chained field setters of a write transform: fold the generated setter
(`storeBe`) over a list of `(lo, hi, value)` triples. -/
def applySets (sets : List (Nat × Nat × Nat)) (w : Buf) : Buf :=
  sets.foldl (fun b p => storeBe b p.1 p.2.1 p.2.2) w

theorem applySets_getD (sets : List (Nat × Nat × Nat)) (w : Buf) (i : Nat)
    (h : ∀ p ∈ sets, i < p.1 ∨ p.2.1 ≤ i) :
    (applySets sets w).getD i false = w.getD i false := by
  induction sets generalizing w with
  | nil => rfl
  | cons p ps ih =>
    have hcons : applySets (p :: ps) w = applySets ps (storeBe w p.1 p.2.1 p.2.2) := rfl
    rw [hcons, ih _ (fun q hq => h q (List.mem_cons_of_mem p hq)), storeBe_getD,
      if_neg]
    have hp := h p (List.mem_cons_self p ps)
    intro hc
    omega

/-- Decoding a field whose bit range is disjoint from every stored range is
unaffected by the chain of stores. -/
theorem loadBe_applySets (sets : List (Nat × Nat × Nat)) (w : Buf)
    (glo ghi : Nat) (hdisj : ∀ p ∈ sets, p.2.1 ≤ glo ∨ ghi ≤ p.1) :
    loadBe (applySets sets w) glo ghi = loadBe w glo ghi := by
  unfold loadBe
  apply Finset.sum_congr rfl
  intro i hmem
  simp only [Finset.mem_Ico] at hmem
  rw [applySets_getD]
  intro p hp
  rcases hdisj p hp with h | h
  · right; omega
  · left; omega

/-!  Structure of the generated API, per access mode (`implement_register`
and `implement_register_field` arms). -/

/-- Access specifiers of the schema, for registers and for fields. -/
inductive Access where
  | RO : Access
  | WO : Access
  | RW : Access
deriving DecidableEq

/-- Operations a `RegAccessor` can expose. -/
inductive AccessorOp where
  | opRead : AccessorOp
  | opWrite : AccessorOp
  | opModify : AccessorOp
deriving DecidableEq

/-- Operations the `implement_register` arm for each register access
specifier generates: the `RO` arm expands only the `@R` implementation
(giving `read`), the `WO` arm only `@W` (giving `write`), and the `RW` arm
expands both and additionally implements `modify`. -/
def registerOps : Access → List AccessorOp
  | Access.RO => [AccessorOp.opRead]
  | Access.WO => [AccessorOp.opWrite]
  | Access.RW => [AccessorOp.opRead, AccessorOp.opWrite, AccessorOp.opModify]

/-- Whether the register arm generates the `R([u8; N])` struct with field
getters; the `WO` arm instead emits `pub type R = ();`. -/
def generatesReadStruct : Access → Bool
  | Access.RO => true
  | Access.WO => false
  | Access.RW => true

/-- Whether the register arm generates the `W([u8; N])` struct with field
setters; the `RO` arm instead emits `pub type W = ();`. -/
def generatesWriteStruct : Access → Bool
  | Access.RO => false
  | Access.WO => true
  | Access.RW => true

/-- Whether a getter for a field exists in the generated API: the register
arm must generate `R` at all, and `implement_register_field!(@R, ...)` emits
a getter for `RO` and `RW` fields while its `WO` arm is empty on purpose. -/
def fieldGetter (regAcc fieldAcc : Access) : Bool :=
  generatesReadStruct regAcc &&
    (match fieldAcc with
     | Access.RO => true
     | Access.WO => false
     | Access.RW => true)

/-- Whether a setter for a field exists in the generated API: the register
arm must generate `W` at all, and `implement_register_field!(@W, ...)` emits
a setter for `WO` and `RW` fields while its `RO` arm is empty on purpose. -/
def fieldSetter (regAcc fieldAcc : Access) : Bool :=
  generatesWriteStruct regAcc &&
    (match fieldAcc with
     | Access.RO => false
     | Access.WO => true
     | Access.RW => true)

/-- Mapping an interface error into `HardwareError` can never produce
`InvalidValue`. -/
theorem mapError_hardware_ne_invalid {α IE : Type} (r : Except IE α) :
    Except.mapError RegisterError.HardwareError r ≠
      Except.error RegisterError.InvalidValue := by
  cases r <;> simp [Except.mapError]

/-!  Claim theorems. -/

/-- C2: for every field with bit range of width `w = hi - lo` and every
scalar `v`, decoding the field after encoding `v` into the same buffer
returns `v mod 2 ^ w` (truncation, not an error) when `v` does not fit in
`w` bits, and returns exactly `v` when it fits. -/
theorem c2_decode_encode_truncation (buf : Buf) (lo hi v : Nat)
    (hlen : hi ≤ buf.length) :
    loadBe (storeBe buf lo hi v) lo hi = v % 2 ^ (hi - lo) ∧
    (v < 2 ^ (hi - lo) → loadBe (storeBe buf lo hi v) lo hi = v) := by
  refine ⟨loadBe_storeBe buf lo hi v hlen, fun hfit => ?_⟩
  rw [loadBe_storeBe buf lo hi v hlen, Nat.mod_eq_of_lt hfit]

theorem c2_decode_encode_truncation_witness :
    5 ≤ (List.replicate 8 false : Buf).length ∧
    (loadBe (storeBe (List.replicate 8 false) 1 5 25) 1 5 = 25 % 2 ^ (5 - 1) ∧
      (25 < 2 ^ (5 - 1) →
        loadBe (storeBe (List.replicate 8 false) 1 5 25) 1 5 = 25)) :=
  ⟨by decide, c2_decode_encode_truncation (List.replicate 8 false) 1 5 25 (by decide)⟩

/-- C4: encoding a value into the bit range `[lo, hi)` of a buffer leaves
every bit outside that range unchanged (and preserves the buffer length), so
the result differs from the input only within the field's declared range. -/
theorem c4_encode_frame (buf : Buf) (lo hi v i : Nat) (h : i < lo ∨ hi ≤ i) :
    (storeBe buf lo hi v).length = buf.length ∧
    (storeBe buf lo hi v).getD i false = buf.getD i false := by
  refine ⟨storeBe_length buf lo hi v, ?_⟩
  rw [storeBe_getD, if_neg]
  intro hc
  omega

theorem c4_encode_frame_witness :
    ((0 : Nat) < 1 ∨ 5 ≤ 0) ∧
    ((storeBe (List.replicate 8 true) 1 5 9).length =
        (List.replicate 8 true : Buf).length ∧
      (storeBe (List.replicate 8 true) 1 5 9).getD 0 false =
        (List.replicate 8 true : Buf).getD 0 false) :=
  ⟨by decide, c4_encode_frame (List.replicate 8 true) 1 5 9 0 (by decide)⟩

/-- C5: on a 1-byte register with field `flag` at bits `[0, 1)` and `count`
at bits `[1, 5)`, starting from the all-zero buffer, setting `count = 9` and
`flag = 1` (in either order) produces the byte `0b00010011` — the value of
the byte is read off the bit view as `loadBe _ 0 8`, since
`bitSig 0 8 i = i` — and decoding that buffer yields `flag = 1` and
`count = 9`. -/
theorem c5_flag_count_scenario :
    loadBe (storeBe (storeBe (zeroBuf 1) 1 5 9) 0 1 1) 0 8 = 0b00010011 ∧
    loadBe (storeBe (storeBe (zeroBuf 1) 0 1 1) 1 5 9) 0 8 = 0b00010011 ∧
    loadBe (storeBe (storeBe (zeroBuf 1) 1 5 9) 0 1 1) 0 1 = 1 ∧
    loadBe (storeBe (storeBe (zeroBuf 1) 1 5 9) 0 1 1) 1 5 = 9 := by
  decide

/-- C10: setters of two fields with disjoint bit ranges commute: applying
`storeBe` for `[lo1, hi1)` then `[lo2, hi2)` equals applying them in the
other order, so the chaining order of a write transform does not matter. -/
theorem c10_disjoint_setters_commute (buf : Buf)
    (lo1 hi1 v1 lo2 hi2 v2 : Nat) (hdisj : hi1 ≤ lo2 ∨ hi2 ≤ lo1) :
    storeBe (storeBe buf lo1 hi1 v1) lo2 hi2 v2 =
      storeBe (storeBe buf lo2 hi2 v2) lo1 hi1 v1 := by
  apply buf_eq_of_getD
  · rw [storeBe_length, storeBe_length, storeBe_length, storeBe_length]
  · intro i
    rw [storeBe_getD, storeBe_getD, storeBe_getD, storeBe_getD,
      storeBe_length, storeBe_length]
    split_ifs <;> first | rfl | omega

theorem c10_disjoint_setters_commute_witness :
    ((1 : Nat) ≤ 1 ∨ 5 ≤ 0) ∧
    storeBe (storeBe (zeroBuf 1) 0 1 1) 1 5 9 =
      storeBe (storeBe (zeroBuf 1) 1 5 9) 0 1 1 :=
  ⟨by decide, c10_disjoint_setters_commute (zeroBuf 1) 0 1 1 1 5 9 (by decide)⟩

/-- C1: on a ReadWrite register, a successful `modify f` first reads the
register, seeds the write value with a byte-for-byte copy `B` of the read
bits, passes both to `f` and writes `f B B` (first conjunct, for an arbitrary
interface whose read succeeds with `B`); against a memory-backed register the
written cell is exactly the transform's result, re-reading returns it, and
every field whose bit range is disjoint from all ranges set by the transform
decodes to the same value as before the `modify` — previously-read bits, not
zero. -/
theorem c1_modify_roundtrip (S A IE : Type) (I : RegisterInterface S A IE)
    (s : S) (addr : A) (size : Nat) (f : Buf → Buf → Buf) (B : Buf)
    (sets : List (Nat × Nat × Nat)) (glo ghi : Nat)
    (hread : (I.read_register s addr (zeroBuf size)).2 = Except.ok B)
    (hdisj : ∀ p ∈ sets, p.2.1 ≤ glo ∨ ghi ≤ p.1) :
    modifyOp I addr size f s =
      writeOp I addr size (fun _ => f B B)
        (I.read_register s addr (zeroBuf size)).1 ∧
    modifyOp memInterface () size (fun _ w => applySets sets w) B =
      (applySets sets B, Except.ok ()) ∧
    (readOp memInterface () size (applySets sets B)).2 =
      Except.ok (applySets sets B) ∧
    loadBe (applySets sets B) glo ghi = loadBe B glo ghi := by
  refine ⟨modifyOp_read_ok I addr size f s B hread, rfl, rfl, ?_⟩
  exact loadBe_applySets sets B glo ghi hdisj

theorem c1_modify_roundtrip_witness :
    (memInterface.read_register (List.replicate 8 true) ()
        (zeroBuf 1)).2 = Except.ok (List.replicate 8 true) ∧
    (∀ p ∈ ([(0, 1, 0)] : List (Nat × Nat × Nat)), p.2.1 ≤ 1 ∨ 5 ≤ p.1) ∧
    (modifyOp memInterface () 1 (fun _ w => w) (List.replicate 8 true) =
        writeOp memInterface () 1
          (fun _ => List.replicate 8 true)
          (memInterface.read_register (List.replicate 8 true) ()
            (zeroBuf 1)).1 ∧
      modifyOp memInterface () 1
          (fun _ w => applySets [(0, 1, 0)] w) (List.replicate 8 true) =
        (applySets [(0, 1, 0)] (List.replicate 8 true), Except.ok ()) ∧
      (readOp memInterface () 1
          (applySets [(0, 1, 0)] (List.replicate 8 true))).2 =
        Except.ok (applySets [(0, 1, 0)] (List.replicate 8 true)) ∧
      loadBe (applySets [(0, 1, 0)] (List.replicate 8 true)) 1 5 =
        loadBe (List.replicate 8 true) 1 5) :=
  ⟨rfl, by decide,
    c1_modify_roundtrip Buf Unit Empty memInterface (List.replicate 8 true) ()
      1 (fun _ w => w) (List.replicate 8 true) [(0, 1, 0)] 1 5 rfl (by decide)⟩

/-- C3: the RO register arm generates neither `write` nor `modify` and its
write value has no field setters for any field access mode; the WO register
arm generates neither `read` nor `modify` and its read value has no field
getters for any field access mode. -/
theorem c3_access_mode_structure :
    (AccessorOp.opWrite ∉ registerOps Access.RO ∧
      AccessorOp.opModify ∉ registerOps Access.RO) ∧
    (fieldSetter Access.RO Access.RO = false ∧
      fieldSetter Access.RO Access.WO = false ∧
      fieldSetter Access.RO Access.RW = false) ∧
    (AccessorOp.opRead ∉ registerOps Access.WO ∧
      AccessorOp.opModify ∉ registerOps Access.WO) ∧
    (fieldGetter Access.WO Access.RO = false ∧
      fieldGetter Access.WO Access.WO = false ∧
      fieldGetter Access.WO Access.RW = false) := by
  decide

theorem c3_access_mode_structure_witness :
    AccessorOp.opWrite ∉ registerOps Access.RO :=
  c3_access_mode_structure.1.1

/-- C6: if the read step of `modify f` fails with interface error `e`, then
`modify` returns `HardwareError e`, the final call trace contains only the
read call (so no write is attempted), and the right-hand side does not
involve `f` at all (so the transform is never invoked). -/
theorem c6_modify_read_failure (S A IE : Type) (I : RegisterInterface S A IE)
    (s : S) (addr : A) (size : Nat) (f : Buf → Buf → Buf) (e : IE)
    (h : (I.read_register s addr (zeroBuf size)).2 = Except.error e) :
    modifyOp (instrument I) addr size f (s, []) =
      (((I.read_register s addr (zeroBuf size)).1, [Call.readCall addr]),
        Except.error (RegisterError.HardwareError e)) := by
  apply modifyOp_read_error
  exact h

theorem c6_modify_read_failure_witness :
    ((failReadInterface (42 : Nat)).read_register () ()
        (zeroBuf 1)).2 = Except.error 42 ∧
    modifyOp (instrument (failReadInterface (42 : Nat))) () 1
        (fun _ w => w) ((), []) =
      ((((failReadInterface (42 : Nat)).read_register () () (zeroBuf 1)).1,
          [Call.readCall ()]),
        Except.error (RegisterError.HardwareError 42)) :=
  ⟨rfl, c6_modify_read_failure Unit Unit Nat (failReadInterface 42) () () 1
    (fun _ w => w) 42 rfl⟩

/-- C7: every error `read`, `write` or `modify` returns is
`HardwareError e` with `e` the unmodified interface error (the results of
`read` and `write` are the interface call's result with the error mapped
through `HardwareError`, nothing else); no operation ever returns
`InvalidValue`; and each step performs exactly one hardware call — the
instrumented traces of `read` and `write` are one-element, so nothing is
retried.  In particular a write whose interface fails returns
`HardwareError`. -/
theorem c7_errors_wrap_interface_losslessly (S A IE : Type)
    (I : RegisterInterface S A IE) (s : S) (addr : A) (size : Nat)
    (f : Buf → Buf) (g : Buf → Buf → Buf) :
    readOp I addr size s =
      ((I.read_register s addr (zeroBuf size)).1,
        Except.mapError RegisterError.HardwareError
          (I.read_register s addr (zeroBuf size)).2) ∧
    writeOp I addr size f s =
      ((I.write_register s addr (f (zeroBuf size))).1,
        Except.mapError RegisterError.HardwareError
          (I.write_register s addr (f (zeroBuf size))).2) ∧
    (readOp I addr size s).2 ≠ Except.error RegisterError.InvalidValue ∧
    (writeOp I addr size f s).2 ≠ Except.error RegisterError.InvalidValue ∧
    (modifyOp I addr size g s).2 ≠ Except.error RegisterError.InvalidValue ∧
    (readOp (instrument I) addr size (s, [])).1.2 = [Call.readCall addr] ∧
    (writeOp (instrument I) addr size f (s, [])).1.2 =
      [Call.writeCall addr (f (zeroBuf size))] := by
  refine ⟨readOp_eq I addr size s, writeOp_eq I addr size f s, ?_, ?_, ?_, ?_, ?_⟩
  · rw [readOp_eq]
    exact mapError_hardware_ne_invalid _
  · rw [writeOp_eq]
    exact mapError_hardware_ne_invalid _
  · rcases hread : (I.read_register s addr (zeroBuf size)).2 with e | B
    · rw [modifyOp_read_error I addr size g s e hread]
      simp
    · rw [modifyOp_read_ok I addr size g s B hread, writeOp_eq]
      exact mapError_hardware_ne_invalid _
  · rw [readOp_eq]
    rfl
  · rw [writeOp_eq]
    rfl

theorem c7_errors_wrap_interface_losslessly_witness :
    (writeOp (failWriteInterface (7 : Nat)) () 1 (fun w => w) ()).2 ≠
      Except.error RegisterError.InvalidValue :=
  (c7_errors_wrap_interface_losslessly Unit Unit Nat (failWriteInterface 7)
    () () 1 (fun w => w) (fun _ w => w)).2.2.2.1

/-- C8: `write f` allocates the all-zero write value, applies `f` to it, and
performs exactly one `write_register` call carrying exactly the bits of
`f (W::zero())` (visible in the instrumented trace and in the unfolding
equation); when the interface write succeeds the operation returns unit. -/
theorem c8_write_zero_seeded (S A IE : Type) (I : RegisterInterface S A IE)
    (s : S) (addr : A) (size : Nat) (f : Buf → Buf) :
    (writeOp (instrument I) addr size f (s, [])).1.2 =
      [Call.writeCall addr (f (zeroBuf size))] ∧
    writeOp I addr size f s =
      ((I.write_register s addr (f (zeroBuf size))).1,
        Except.mapError RegisterError.HardwareError
          (I.write_register s addr (f (zeroBuf size))).2) ∧
    (writeOp memInterface () size f (zeroBuf size)).2 = Except.ok () := by
  refine ⟨?_, writeOp_eq I addr size f s, rfl⟩
  rw [writeOp_eq]
  rfl

/-- C9 counterexample: the claim says the write value is initialized to the
all-zero buffer in every operation including `modify`; if that held, a
`modify` whose transform applies no field setter would write the all-zero
buffer.  But `modify` seeds the write value with `W(r.0.clone())`: after
reading the all-ones byte from a memory-backed register, the identity
transform writes the all-ones byte back, which is not the all-zero buffer. -/
theorem c9_counterexample :
    (modifyOp memInterface () 1 (fun _ w => w) (List.replicate 8 true)).1 =
      List.replicate 8 true ∧
    (List.replicate 8 true : Buf) ≠ zeroBuf 1 := by
  exact ⟨rfl, by decide⟩

/-- C9 (amended): the write value allocated by `write` is initialized to the
all-zero buffer and handed to the caller's transform, whose result is written
as-is; the write value created by `modify` is instead seeded with a
byte-for-byte copy of the just-read bytes before being handed to the
transform. -/
theorem c9_amended_write_value_initialization (S A IE : Type)
    (I : RegisterInterface S A IE) (s : S) (addr : A) (size : Nat)
    (f : Buf → Buf) (g : Buf → Buf → Buf) (B : Buf) :
    (writeOp (instrument I) addr size f (s, [])).1.2 =
      [Call.writeCall addr (f (zeroBuf size))] ∧
    modifyOp memInterface () size g B = (g B B, Except.ok ()) := by
  refine ⟨?_, modifyOp_mem size g B⟩
  rw [writeOp_eq]
  rfl

end DeviceDriver
